import Mathlib

/-!
# Verification of the sales-dashboard filtering and aggregation pipeline

A shallow embedding of the filtering/aggregation logic of
`streamlit_app.py` (a single-page sales dashboard), together with theorems
settling the specification's claims about it.

Modelling conventions:
* a dataframe row (`Record`) carries an integer-coded calendar date
  (pandas `Timestamp`s are totally ordered; only their order matters to the
  code), category and region as character lists, and integer `sales` and
  `profit` columns;
* the dataframe is an ordered list of rows; `df[mask]` is `List.filter`;
* pandas/NumPy float results that can be non-finite are modelled by `PyVal`
  (a finite rational, `inf`, `-inf`, or `nan`), with true division of
  NumPy integer scalars mapped to `npDiv` (IEEE semantics: `x / 0` is
  `±inf` for `x ≠ 0` and `nan` for `x = 0`, as NumPy produces for
  `int64` scalar division);
* the sidebar widgets' default filter state (lines 46-65 of the source) is
  `defaultCriteria`: the date range defaults to `(df.date.min, df.date.max)`
  and the category/region selections default to the column's distinct
  values in order of first appearance (pandas `Series.unique`).
-/

/-- A CSV field / cell value, kept as a raw character list. -/
abbrev Str := List Char

/-- One row of the sales dataframe: the five required columns of the input
CSV (`date, category, region, sales, profit`), after the loader has parsed
`date` into a calendar date (coded here as an integer). -/
structure Record where
  date : Int
  category : Str
  region : Str
  sales : Int
  profit : Int
  deriving DecidableEq, Repr

/-- The captured filter state: the date-range widget's tuple (which can
have fewer than two bounds while the user is mid-selection), and the
selected category and region values. -/
structure Criteria where
  dateRange : List Int
  categories : List Str
  regions : List Str
  deriving DecidableEq, Repr

/-- The filtering step (source lines 68-80): when the date-range tuple has
exactly two bounds, keep the rows satisfying all four conjuncts
(`date >= start`, `date <= end`, `category.isin(categories)`,
`region.isin(regions)`); otherwise fall back to filtering by category and
region alone. -/
def applyFilter (df : List Record) (c : Criteria) : List Record :=
  match c.dateRange with
  | [s, e] =>
      df.filter fun r =>
        decide (s ≤ r.date) && decide (r.date ≤ e) &&
        decide (r.category ∈ c.categories) && decide (r.region ∈ c.regions)
  | _ =>
      df.filter fun r =>
        decide (r.category ∈ c.categories) && decide (r.region ∈ c.regions)

/-- The spec's §8 scenario, first row: (2024-01-01, "A", "East", 100, 10);
dates are coded 1, 2, 3. -/
def recA1 : Record := ⟨1, ['A'], ['E', 'a', 's', 't'], 100, 10⟩

/-- The spec's §8 scenario, second row: (2024-01-02, "A", "East", 200, 20). -/
def recA2 : Record := ⟨2, ['A'], ['E', 'a', 's', 't'], 200, 20⟩

/-- The spec's §8 scenario, third row: (2024-01-03, "B", "West", 50, -5). -/
def recB3 : Record := ⟨3, ['B'], ['W', 'e', 's', 't'], 50, -5⟩

/-- The spec's §8 scenario dataset. -/
def sampleDf : List Record := [recA1, recA2, recB3]

/-- C1: with a two-bound date range, the filtered view is a sub-list of the
dataset and consists exactly of the rows satisfying the conjunction of the
four predicates (date within bounds, category selected, region selected). -/
theorem c1_filter_is_fourfold_conjunction (df : List Record) (c : Criteria)
    (s e : Int) (h : c.dateRange = [s, e]) :
    applyFilter df c ⊆ df ∧
    applyFilter df c = df.filter fun r =>
      decide (s ≤ r.date ∧ r.date ≤ e ∧
        r.category ∈ c.categories ∧ r.region ∈ c.regions) := by
  obtain ⟨dr, cats, regs⟩ := c
  simp only [Criteria.dateRange] at h
  subst h
  constructor
  · exact fun r hr => (List.mem_filter.mp hr).1
  · simp only [applyFilter]
    refine List.filter_congr fun r _ => ?_
    simp [Bool.decide_and, Bool.and_assoc]

/-- C1 witness: the spec's §8 scenario (dates 2024-01-01..02, category
{"A"}, region {"East"}) instantiates the filtering theorem. -/
theorem c1_witness :
    (Criteria.mk [1, 2] [['A']] [['E', 'a', 's', 't']]).dateRange = [1, 2] ∧
    (applyFilter sampleDf (Criteria.mk [1, 2] [['A']] [['E', 'a', 's', 't']]) ⊆ sampleDf ∧
     applyFilter sampleDf (Criteria.mk [1, 2] [['A']] [['E', 'a', 's', 't']]) =
       sampleDf.filter fun r =>
         decide (1 ≤ r.date ∧ r.date ≤ 2 ∧
           r.category ∈ (Criteria.mk [1, 2] [['A']] [['E', 'a', 's', 't']]).categories ∧
           r.region ∈ (Criteria.mk [1, 2] [['A']] [['E', 'a', 's', 't']]).regions)) :=
  ⟨rfl, c1_filter_is_fourfold_conjunction sampleDf _ 1 2 rfl⟩

/-- C4: an empty category selection makes the filtered view empty, whatever
the date range and region selection are (both branches of the filter test
`category.isin([])`, which holds of no row). -/
theorem c4_empty_categories_empty_view (df : List Record) (c : Criteria)
    (h : c.categories = []) : applyFilter df c = [] := by
  obtain ⟨dr, cats, regs⟩ := c
  simp only [Criteria.categories] at h
  subst h
  match dr with
  | [s, e] => simp [applyFilter]
  | [] => simp [applyFilter]
  | [a] => simp [applyFilter]
  | a :: b :: d :: t => simp [applyFilter]

/-- C4 witness: the scenario dataset with every date and region allowed but
no category selected filters to nothing. -/
theorem c4_witness :
    (Criteria.mk [1, 3] [] [['E', 'a', 's', 't'], ['W', 'e', 's', 't']]).categories = [] ∧
    applyFilter sampleDf
      (Criteria.mk [1, 3] [] [['E', 'a', 's', 't'], ['W', 'e', 's', 't']]) = [] :=
  ⟨rfl, c4_empty_categories_empty_view sampleDf _ rfl⟩

/-- C5: a malformed date range (fewer than two bounds) sends the filter to
its fallback branch, which keeps every date and filters by category and
region alone. -/
theorem c5_malformed_range_fallback (df : List Record) (c : Criteria)
    (h : c.dateRange.length < 2) :
    applyFilter df c = df.filter fun r =>
      decide (r.category ∈ c.categories ∧ r.region ∈ c.regions) := by
  obtain ⟨dr, cats, regs⟩ := c
  simp only [Criteria.dateRange] at h
  match dr, h with
  | [], _ =>
      simp only [applyFilter]
      exact List.filter_congr fun r _ => by simp [Bool.decide_and]
  | [a], _ =>
      simp only [applyFilter]
      exact List.filter_congr fun r _ => by simp [Bool.decide_and]

/-- C5 witness: a one-bound date range on the scenario dataset filters by
category and region only. -/
theorem c5_witness :
    (Criteria.mk [2] [['A'], ['B']] [['W', 'e', 's', 't']]).dateRange.length < 2 ∧
    applyFilter sampleDf (Criteria.mk [2] [['A'], ['B']] [['W', 'e', 's', 't']]) =
      sampleDf.filter fun r =>
        decide (r.category ∈ (Criteria.mk [2] [['A'], ['B']] [['W', 'e', 's', 't']]).categories ∧
          r.region ∈ (Criteria.mk [2] [['A'], ['B']] [['W', 'e', 's', 't']]).regions) :=
  ⟨by decide, c5_malformed_range_fallback sampleDf _ (by decide)⟩

/-- A Python/NumPy float result that may be non-finite: a finite rational,
`+inf`, `-inf`, or `nan`. -/
inductive PyVal where
  | fin (q : ℚ)
  | inf
  | ninf
  | nan
  deriving DecidableEq, Repr

/-- True division of two NumPy integer scalars (as produced by
`Series.sum` on an `int64` column): IEEE semantics, so `a / 0` is `+inf`
for `a > 0`, `-inf` for `a < 0` and `nan` for `a = 0`; NumPy emits a
`RuntimeWarning` but no exception and no guard. -/
def npDiv (a b : Int) : PyVal :=
  if b = 0 then
    if 0 < a then PyVal.inf else if a < 0 then PyVal.ninf else PyVal.nan
  else PyVal.fin ((a : ℚ) / (b : ℚ))

/-- Multiplication of a float result by the literal 100 (the `* 100` of the
profit-rate metric): scales a finite value, fixes `±inf` and `nan`. -/
def pyMul100 (v : PyVal) : PyVal :=
  match v with
  | PyVal.fin q => PyVal.fin (q * 100)
  | PyVal.inf => PyVal.inf
  | PyVal.ninf => PyVal.ninf
  | PyVal.nan => PyVal.nan

/-- `filtered_df['sales'].sum()` (source line 88/109). -/
def totalSales (view : List Record) : Int := (view.map fun r => r.sales).sum

/-- `filtered_df['profit'].sum()` (source line 102/109). -/
def totalProfit (view : List Record) : Int := (view.map fun r => r.profit).sum

/-- The profit-rate metric (source line 109):
`filtered_df['profit'].sum() / filtered_df['sales'].sum() * 100`,
computed with no division-by-zero guard. -/
def profitRatePct (view : List Record) : PyVal :=
  pyMul100 (npDiv (totalProfit view) (totalSales view))

/-- `Series.mean()` of an integer column (source lines 95 and 103): sum
over length, and the float `nan` for an empty column — pandas returns the
sentinel float rather than signalling, and the source interpolates it
straight into the metric string. -/
def pyMean (xs : List Int) : PyVal :=
  if xs.length = 0 then PyVal.nan
  else PyVal.fin ((xs.sum : ℚ) / (xs.length : ℚ))

/-- The exact value of a pandas `Series.std()` call: `nan`, or the square
root of the (rational) sample variance, kept symbolically so the embedding
stays exact. -/
inductive StdVal where
  | nan
  | sqrtOf (variance : ℚ)
  deriving DecidableEq, Repr

/-- `Series.std()` of an integer column (source line 96): sample standard
deviation (`ddof=1`), which is the float `nan` for a column with fewer than
two entries, again without any explicit undefined signal. -/
def pyStd (xs : List Int) : StdVal :=
  if xs.length ≤ 1 then StdVal.nan
  else
    StdVal.sqrtOf
      (((xs.map fun x => ((x : ℚ) - (xs.sum : ℚ) / (xs.length : ℚ)) ^ 2).sum) /
        ((xs.length : ℚ) - 1))

/-- The mean-sales metric of source line 95, as handed to the display. -/
def meanSalesMetric (view : List Record) : PyVal :=
  pyMean (view.map fun r => r.sales)

/-- The mean-profit metric of source line 103. -/
def meanProfitMetric (view : List Record) : PyVal :=
  pyMean (view.map fun r => r.profit)

/-- The sales standard-deviation metric of source line 96. -/
def stdSalesMetric (view : List Record) : StdVal :=
  pyStd (view.map fun r => r.sales)

/-- C2 counterexample: on the dataset with the single record
{sales: 0, profit: 5}, total sales is 0 and the profit-rate metric
evaluates to `+inf` (5 / 0 under IEEE division, then scaled by 100) — the
claim says a flagged undefined value is reported and infinity never is. -/
theorem c2_zero_sales_gives_infinity :
    totalSales [Record.mk 1 ['A'] ['E', 'a', 's', 't'] 0 5] = 0 ∧
    profitRatePct [Record.mk 1 ['A'] ['E', 'a', 's', 't'] 0 5] = PyVal.inf := by
  constructor
  · rfl
  · rfl

/-- C2 as amended: the division is unguarded, so whenever total sales is 0
the profit rate is the raw IEEE result — `+inf` for positive total profit,
`-inf` for negative, `nan` when total profit is also 0 — never a flagged
undefined value. -/
theorem c2_unguarded_rate_at_zero_sales (view : List Record)
    (h : totalSales view = 0) :
    profitRatePct view =
      if 0 < totalProfit view then PyVal.inf
      else if totalProfit view < 0 then PyVal.ninf
      else PyVal.nan := by
  simp only [profitRatePct, npDiv, h, if_pos rfl]
  by_cases hp : 0 < totalProfit view
  · simp [hp, pyMul100]
  · by_cases hn : totalProfit view < 0
    · simp [hp, hn, pyMul100]
    · simp [hp, hn, pyMul100]

/-- C2 witness: the amended statement instantiated at the claim's own
example record {sales: 0, profit: 5}. -/
theorem c2_witness :
    totalSales [Record.mk 1 ['A'] ['E', 'a', 's', 't'] 0 5] = 0 ∧
    profitRatePct [Record.mk 1 ['A'] ['E', 'a', 's', 't'] 0 5] =
      if 0 < totalProfit [Record.mk 1 ['A'] ['E', 'a', 's', 't'] 0 5] then PyVal.inf
      else if totalProfit [Record.mk 1 ['A'] ['E', 'a', 's', 't'] 0 5] < 0 then PyVal.ninf
      else PyVal.nan :=
  ⟨by decide, c2_unguarded_rate_at_zero_sales _ (by decide)⟩

/-- `df['date'].min()` — pandas returns the missing-value sentinel `NaT`
for an empty column, modelled as `none`. -/
def colMin : List Int → Option Int
  | [] => none
  | x :: xs =>
    match colMin xs with
    | none => some x
    | some m => some (min x m)

/-- `df['date'].max()`, `none` (pandas `NaT`) on an empty column. -/
def colMax : List Int → Option Int
  | [] => none
  | x :: xs =>
    match colMax xs with
    | none => some x
    | some m => some (max x m)

/-- `Series.unique()` (source lines 56 and 63): the distinct values of a
column in order of first appearance. -/
def pdUniqueAux (seen : List Str) : List Str → List Str
  | [] => []
  | x :: xs =>
    if x ∈ seen then pdUniqueAux seen xs
    else x :: pdUniqueAux (x :: seen) xs

/-- The distinct values of a column in order of first appearance. -/
def pdUnique (l : List Str) : List Str := pdUniqueAux [] l

/-- The default filter state built by the sidebar widgets (source lines
46-65): date range `(df.date.min, df.date.max)` and all distinct category
and region values. For a dataset with zero rows the min and max of the
date column are the missing-value sentinel `NaT`, which is not a calendar
date the date widget can hold, so no well-formed default exists (`none`). -/
def defaultCriteria (df : List Record) : Option Criteria :=
  match colMin (df.map fun r => r.date), colMax (df.map fun r => r.date) with
  | some lo, some hi =>
      some
        (Criteria.mk [lo, hi] (pdUnique (df.map fun r => r.category))
          (pdUnique (df.map fun r => r.region)))
  | _, _ => none

/-- One initial run of the dashboard pipeline (load already done): build
the widgets' default filter state, then filter; `none` when the widget
defaults cannot be built. -/
def runPipeline (df : List Record) : Option (List Record) :=
  match defaultCriteria df with
  | some c => some (applyFilter df c)
  | none => none

theorem mem_pdUniqueAux (l : List Str) :
    ∀ (seen : List Str) (a : Str), a ∈ pdUniqueAux seen l ↔ a ∈ l ∧ a ∉ seen := by
  induction l with
  | nil => intro seen a; simp [pdUniqueAux]
  | cons x xs ih =>
      intro seen a
      by_cases hx : x ∈ seen
      · rw [pdUniqueAux, if_pos hx, ih]
        constructor
        · exact fun ⟨h1, h2⟩ => ⟨List.mem_cons_of_mem _ h1, h2⟩
        · rintro ⟨h1, h2⟩
          rcases List.mem_cons.mp h1 with rfl | h1
          · exact absurd hx h2
          · exact ⟨h1, h2⟩
      · rw [pdUniqueAux, if_neg hx]
        constructor
        · intro h
          rcases List.mem_cons.mp h with rfl | h
          · exact ⟨List.mem_cons_self _ _, hx⟩
          · obtain ⟨h1, h2⟩ := (ih _ _).mp h
            exact ⟨List.mem_cons_of_mem _ h1,
              fun hs => h2 (List.mem_cons_of_mem _ hs)⟩
        · rintro ⟨h1, h2⟩
          rcases List.mem_cons.mp h1 with rfl | h1
          · exact List.mem_cons_self _ _
          · by_cases hax : a = x
            · subst hax; exact List.mem_cons_self _ _
            · exact List.mem_cons_of_mem _
                ((ih _ _).mpr ⟨h1, fun hs => by
                  rcases List.mem_cons.mp hs with h | h
                  · exact hax h
                  · exact h2 h⟩)

theorem mem_pdUnique (l : List Str) (a : Str) : a ∈ pdUnique l ↔ a ∈ l := by
  rw [pdUnique, mem_pdUniqueAux]
  simp

theorem colMin_le (l : List Int) :
    ∀ (m : Int), colMin l = some m → ∀ x ∈ l, m ≤ x := by
  induction l with
  | nil => intro m h; cases h
  | cons x xs ih =>
      intro m h y hy
      rw [colMin] at h
      rcases List.mem_cons.mp hy with rfl | hy
      · cases hx : colMin xs with
        | none => rw [hx] at h; exact le_of_eq (Option.some_injective _ h).symm
        | some k =>
            rw [hx] at h
            cases h
            exact min_le_left _ _
      · cases hx : colMin xs with
        | none =>
            rcases xs with _ | ⟨z, zs⟩
            · cases hy
            · rw [colMin] at hx
              cases hkk : colMin zs <;> rw [hkk] at hx <;> cases hx
        | some k =>
            rw [hx] at h
            cases h
            exact le_trans (min_le_right _ _) (ih k hx y hy)

theorem le_colMax (l : List Int) :
    ∀ (m : Int), colMax l = some m → ∀ x ∈ l, x ≤ m := by
  induction l with
  | nil => intro m h; cases h
  | cons x xs ih =>
      intro m h y hy
      rw [colMax] at h
      rcases List.mem_cons.mp hy with rfl | hy
      · cases hx : colMax xs with
        | none => rw [hx] at h; exact le_of_eq (Option.some_injective _ h)
        | some k =>
            rw [hx] at h
            cases h
            exact le_max_left _ _
      · cases hx : colMax xs with
        | none =>
            rcases xs with _ | ⟨z, zs⟩
            · cases hy
            · rw [colMax] at hx
              cases hkk : colMax zs <;> rw [hkk] at hx <;> cases hx
        | some k =>
            rw [hx] at h
            cases h
            exact le_trans (ih k hx y hy) (le_max_right _ _)

/-- C10: the widget defaults — date range (min date, max date), every
distinct category, every distinct region — make the filter an identity:
the filtered view is the whole dataset, in order. -/
theorem c10_default_criteria_identity (df : List Record) (c : Criteria)
    (h : defaultCriteria df = some c) : applyFilter df c = df := by
  unfold defaultCriteria at h
  cases hlo : colMin (df.map fun r => r.date) with
  | none => rw [hlo] at h; cases h
  | some lo =>
      cases hhi : colMax (df.map fun r => r.date) with
      | none => rw [hlo, hhi] at h; cases h
      | some hi =>
          rw [hlo, hhi] at h
          cases h
          simp only [applyFilter]
          rw [List.filter_eq_self]
          intro r hr
          have hlo2 : lo ≤ r.date :=
            colMin_le _ _ hlo r.date (List.mem_map_of_mem _ hr)
          have hhi2 : r.date ≤ hi :=
            le_colMax _ _ hhi r.date (List.mem_map_of_mem _ hr)
          have hc : r.category ∈ pdUnique (df.map fun r => r.category) :=
            (mem_pdUnique _ _).mpr (List.mem_map_of_mem _ hr)
          have hg : r.region ∈ pdUnique (df.map fun r => r.region) :=
            (mem_pdUnique _ _).mpr (List.mem_map_of_mem _ hr)
          simp [hlo2, hhi2, hc, hg]

/-- C10 witness: the default criteria of the §8 scenario dataset (dates
1..3, categories {"A","B"}, regions {"East","West"}) filter it to itself. -/
theorem c10_witness :
    defaultCriteria sampleDf =
      some (Criteria.mk [1, 3] [['A'], ['B']]
        [['E', 'a', 's', 't'], ['W', 'e', 's', 't']]) ∧
    applyFilter sampleDf
      (Criteria.mk [1, 3] [['A'], ['B']]
        [['E', 'a', 's', 't'], ['W', 'e', 's', 't']]) = sampleDf :=
  ⟨by decide, c10_default_criteria_identity sampleDf _ (by decide)⟩

/-- Row order used for the time-series tab:
`filtered_df.sort_values('date')` (source line 134) — the rows reordered so
dates are ascending. -/
def sortByDate (rs : List Record) : List Record :=
  List.insertionSort (fun a b => a.date ≤ b.date) rs

instance : IsTotal Record fun a b => a.date ≤ b.date :=
  ⟨fun a b => le_total a.date b.date⟩

instance : IsTrans Record fun a b => a.date ≤ b.date :=
  ⟨fun _ _ _ hab hbc => le_trans hab hbc⟩

/-- The date-sorted sales column
`filtered_df_sorted['sales']` (source line 135), as exact rationals. -/
def salesSeq (rs : List Record) : List ℚ :=
  (sortByDate rs).map fun r => (r.sales : ℚ)

/-- `Series.rolling(window=w).mean()` (source line 135): one output cell
per input cell; cell `i` is the mean of the `w` values ending at `i` when
at least `w` values have been seen (pandas' default `min_periods=window`),
and the in-place undefined cell (pandas `NaN`, modelled `none`) before
that. -/
def rollingMean (w : Nat) (xs : List ℚ) : List (Option ℚ) :=
  (List.range xs.length).map fun i =>
    if 1 ≤ w ∧ w ≤ i + 1 then
      some (((xs.take (i + 1)).drop (i + 1 - w)).sum / (w : ℚ))
    else none

/-- The window of `w` values ending at position `i` (the claim's "trailing
`w` sales values"). -/
def trailWindow (w : Nat) (xs : List ℚ) (i : Nat) : List ℚ :=
  (xs.drop (i + 1 - w)).take w

theorem length_sortByDate (rs : List Record) :
    (sortByDate rs).length = rs.length := by
  rw [sortByDate]
  exact (List.perm_insertionSort (fun a b => a.date ≤ b.date) rs).length_eq

theorem length_salesSeq (rs : List Record) : (salesSeq rs).length = rs.length := by
  rw [salesSeq, List.length_map, length_sortByDate]

theorem length_rollingMean (w : Nat) (xs : List ℚ) :
    (rollingMean w xs).length = xs.length := by
  rw [rollingMean, List.length_map, List.length_range]

/-- C6: the rolling average is taken over the view sorted by date
ascending; with window `w ≥ 1`, a view of fewer than `w` records yields
only undefined cells, and in general the output is exactly: undefined at
the positions with fewer than `w` trailing records, and the arithmetic mean
(sum over length) of the full `w`-record trailing window of sales
everywhere from position `w - 1` on. -/
theorem c6_rolling_mean_of_trailing_window (rs : List Record) (w : Nat)
    (hw : 0 < w) :
    List.Sorted (fun a b : Record => a.date ≤ b.date) (sortByDate rs) ∧
    (rs.length < w → rollingMean w (salesSeq rs) = List.replicate rs.length none) ∧
    rollingMean w (salesSeq rs) =
      (List.range rs.length).map fun i =>
        if w ≤ i + 1 ∧ (trailWindow w (salesSeq rs) i).length = w then
          some ((trailWindow w (salesSeq rs) i).sum /
            ((trailWindow w (salesSeq rs) i).length : ℚ))
        else none := by
  refine ⟨List.sorted_insertionSort _ rs, ?_, ?_⟩
  · intro hlt
    rw [List.eq_replicate_iff]
    constructor
    · rw [length_rollingMean, length_salesSeq]
    · intro b hb
      rw [rollingMean] at hb
      obtain ⟨i, hi, rfl⟩ := List.mem_map.mp hb
      have hi2 : i < (salesSeq rs).length := List.mem_range.mp hi
      rw [length_salesSeq] at hi2
      rw [if_neg]
      rintro ⟨-, h2⟩
      omega
  · rw [rollingMean, length_salesSeq]
    refine List.map_congr_left fun i hi => ?_
    have hi2 : i < rs.length := List.mem_range.mp hi
    by_cases hcut : w ≤ i + 1
    · have hlen : (trailWindow w (salesSeq rs) i).length = w := by
        rw [trailWindow, List.length_take, List.length_drop, length_salesSeq]
        omega
      rw [if_pos ⟨hw, hcut⟩, if_pos ⟨hcut, hlen⟩, hlen]
      have hsl : ((salesSeq rs).take (i + 1)).drop (i + 1 - w) =
          trailWindow w (salesSeq rs) i := by
        rw [trailWindow, List.drop_take]
        congr 1
        omega
      rw [hsl]
    · rw [if_neg (fun h => hcut h.2), if_neg (fun h => hcut h.1)]

/-- C6 witness: the scenario dataset (presented out of date order) with
window 3: only the last position is defined and it carries the mean of all
three sales values. -/
theorem c6_witness :
    0 < 3 ∧
    (List.Sorted (fun a b : Record => a.date ≤ b.date)
        (sortByDate [recB3, recA1, recA2]) ∧
      ([recB3, recA1, recA2].length < 3 →
        rollingMean 3 (salesSeq [recB3, recA1, recA2]) =
          List.replicate [recB3, recA1, recA2].length none) ∧
      rollingMean 3 (salesSeq [recB3, recA1, recA2]) =
        (List.range [recB3, recA1, recA2].length).map fun i =>
          if 3 ≤ i + 1 ∧ (trailWindow 3 (salesSeq [recB3, recA1, recA2]) i).length = 3 then
            some ((trailWindow 3 (salesSeq [recB3, recA1, recA2]) i).sum /
              ((trailWindow 3 (salesSeq [recB3, recA1, recA2]) i).length : ℚ))
          else none) :=
  ⟨by decide, c6_rolling_mean_of_trailing_window [recB3, recA1, recA2] 3 (by decide)⟩

/-- C9: the rolling-average column has exactly one cell per record of the
date-sorted view, and each of the leading positions with fewer than `w`
trailing records holds an in-place undefined cell (none is omitted). -/
theorem c9_rolling_cells_in_place (rs : List Record) (w : Nat) :
    (rollingMean w (salesSeq rs)).length = rs.length ∧
    (rollingMean w (salesSeq rs)).take (min (w - 1) rs.length) =
      List.replicate (min (w - 1) rs.length) none := by
  have hlen : (rollingMean w (salesSeq rs)).length = rs.length := by
    rw [length_rollingMean, length_salesSeq]
  refine ⟨hlen, ?_⟩
  refine List.ext_getElem ?_ fun i h1 h2 => ?_
  · rw [List.length_take, hlen, List.length_replicate]
    omega
  · rw [List.getElem_take, List.getElem_replicate]
    have hi : i < min (w - 1) rs.length := by
      rw [List.length_take, hlen] at h1
      omega
    have hir : i < (List.range (salesSeq rs).length).length := by
      rw [List.length_range, length_salesSeq]
      omega
    simp only [rollingMean, List.getElem_map, List.getElem_range]
    rw [if_neg]
    rintro ⟨h1w, h2w⟩
    omega

/-- C3 counterexample: on the dataset with zero rows the pipeline does not
complete to the empty filtered view — the date widget's default value,
`(df.date.min, df.date.max)`, has no calendar date to hold (pandas yields
the `NaT` sentinel, which the date-input widget cannot render), so the
initial run fails before a view is produced. -/
theorem c3_empty_dataset_pipeline_fails :
    runPipeline ([] : List Record) ≠ some [] := by
  decide

/-- C3 as amended: on the empty dataset the filtering logic itself would
return an empty view, but the pipeline does not complete cleanly: the
widget defaults are unbuildable (`runPipeline` is `none` because the date
column has no min/max), and the unguarded profit-rate metric would divide
total profit by total sales = 0 / 0, which is no defined value (`nan` for
NumPy scalars; a `ZeroDivisionError` for the plain-int sums an
all-object-dtype empty frame produces). -/
theorem c3_empty_dataset_behaviour :
    runPipeline ([] : List Record) = none ∧
    applyFilter [] (Criteria.mk [] [] []) = [] ∧
    totalSales [] = 0 ∧ totalProfit [] = 0 ∧
    npDiv (totalProfit []) (totalSales []) = PyVal.nan ∧
    profitRatePct [] = PyVal.nan := by
  refine ⟨rfl, rfl, rfl, rfl, rfl, rfl⟩

/-- C7 counterexample: on an empty filtered view the mean-sales metric is
the raw float `nan` — pandas' silent sentinel, interpolated straight into
the metric string — not an explicitly signalled undefined value; the claim
says a bare `NaN` is never handed to the caller. -/
theorem c7_empty_mean_is_bare_nan :
    meanSalesMetric ([] : List Record) = PyVal.nan := by
  rfl

/-- C7 as amended: for the empty filtered view every displayed statistic —
mean sales, sales standard deviation, mean profit — evaluates to the float
`nan`, which the source formats directly into the metric display; no
explicit undefined marker is produced anywhere. -/
theorem c7_empty_stats_all_nan :
    meanSalesMetric ([] : List Record) = PyVal.nan ∧
    stdSalesMetric ([] : List Record) = StdVal.nan ∧
    meanProfitMetric ([] : List Record) = PyVal.nan ∧
    pyStd (([] : List Record).map fun r => r.profit) = StdVal.nan := by
  refine ⟨rfl, rfl, rfl, rfl⟩

/-- The decimal digit characters, for rendering the numeric and date
columns the way `DataFrame.to_csv` prints them. -/
def digitChar (d : Nat) : Char :=
  match d with
  | 0 => '0' | 1 => '1' | 2 => '2' | 3 => '3' | 4 => '4'
  | 5 => '5' | 6 => '6' | 7 => '7' | 8 => '8' | _ => '9'

/-- The numeric value of a decimal digit character. -/
def charDigit (c : Char) : Nat := c.toNat - 48

/-- Whether a character is a decimal digit. -/
def isDigitChar (c : Char) : Bool := 48 ≤ c.toNat && c.toNat ≤ 57

/-- Little-endian decimal digits of `n`, with explicit fuel so the
definition is structural (the fuel `n` itself is always enough). -/
def digitsRevFuel : Nat → Nat → List Nat
  | 0, _ => []
  | _ + 1, 0 => []
  | fuel + 1, n + 1 => ((n + 1) % 10) :: digitsRevFuel fuel ((n + 1) / 10)

/-- Little-endian decimal digits of `n` (empty for 0). -/
def digitsRev (n : Nat) : List Nat := digitsRevFuel n n

/-- Value of a little-endian digit list. -/
def ofDigitsRev : List Nat → Nat
  | [] => 0
  | d :: ds => d + 10 * ofDigitsRev ds

/-- Decimal rendering of a natural number. -/
def natToChars (n : Nat) : List Char :=
  if n = 0 then ['0'] else ((digitsRev n).map digitChar).reverse

/-- Parse a decimal natural number, `none` unless the text is one or more
digits (what `read_csv` accepts for an integer cell). -/
def charsToNat (cs : List Char) : Option Nat :=
  if cs.isEmpty then none
  else if cs.all isDigitChar then some (ofDigitsRev ((cs.map charDigit).reverse))
  else none

/-- Decimal rendering of an integer cell, `-` sign first. -/
def intToChars (n : Int) : List Char :=
  if n < 0 then '-' :: natToChars n.natAbs else natToChars n.natAbs

/-- Parse a (possibly negative) decimal integer cell. -/
def charsToInt (cs : List Char) : Option Int :=
  match cs with
  | [] => none
  | c :: rest =>
      if c = '-' then
        match charsToNat rest with
        | some m => some (-(m : Int))
        | none => none
      else
        match charsToNat (c :: rest) with
        | some m => some ((m : Int))
        | none => none

theorem ofDigitsRev_digitsRevFuel :
    ∀ (fuel n : Nat), n ≤ fuel → ofDigitsRev (digitsRevFuel fuel n) = n := by
  intro fuel
  induction fuel with
  | zero =>
      intro n h
      have hn : n = 0 := by omega
      subst hn
      rfl
  | succ f ih =>
      intro n h
      match n with
      | 0 => rfl
      | m + 1 =>
          show (m + 1) % 10 + 10 * ofDigitsRev (digitsRevFuel f ((m + 1) / 10)) = m + 1
          rw [ih ((m + 1) / 10) (by omega)]
          omega

theorem digitsRevFuel_lt_ten :
    ∀ (fuel n d : Nat), d ∈ digitsRevFuel fuel n → d < 10 := by
  intro fuel
  induction fuel with
  | zero => intro n d h; cases h
  | succ f ih =>
      intro n d h
      match n with
      | 0 => cases h
      | m + 1 =>
          rcases List.mem_cons.mp h with rfl | h
          · omega
          · exact ih _ _ h

theorem digitsRev_ne_nil (n : Nat) (h : n ≠ 0) : digitsRev n ≠ [] := by
  match n, h with
  | m + 1, _ =>
      show ((m + 1) % 10) :: digitsRevFuel m ((m + 1) / 10) ≠ []
      simp

theorem charDigit_digitChar : ∀ d, d < 10 → charDigit (digitChar d) = d := by
  decide

theorem isDigitChar_digitChar : ∀ d, d < 10 → isDigitChar (digitChar d) = true := by
  decide

theorem charsToNat_natToChars (n : Nat) : charsToNat (natToChars n) = some n := by
  by_cases h0 : n = 0
  · subst h0; rfl
  · rw [natToChars, if_neg h0, charsToNat]
    have hmem : ∀ c ∈ ((digitsRev n).map digitChar).reverse, isDigitChar c = true := by
      intro c hc
      rw [List.mem_reverse] at hc
      obtain ⟨d, hd, rfl⟩ := List.mem_map.mp hc
      exact isDigitChar_digitChar d (digitsRevFuel_lt_ten n n d hd)
    have hne : ((digitsRev n).map digitChar).reverse ≠ [] := by
      simp [digitsRev_ne_nil n h0]
    rw [if_neg (by simpa [List.isEmpty_iff] using hne)]
    rw [if_pos (List.all_eq_true.mpr hmem)]
    congr 1
    rw [← List.map_reverse, List.reverse_reverse, List.map_map]
    have hid : (digitsRev n).map (charDigit ∘ digitChar) = (digitsRev n).map id :=
      List.map_congr_left fun d hd =>
        charDigit_digitChar d (digitsRevFuel_lt_ten n n d hd)
    rw [hid, List.map_id]
    exact ofDigitsRev_digitsRevFuel n n le_rfl

theorem mem_natToChars_isDigit (n : Nat) :
    ∀ c ∈ natToChars n, isDigitChar c = true := by
  intro c hc
  rw [natToChars] at hc
  by_cases h0 : n = 0
  · rw [if_pos h0] at hc
    rcases List.mem_cons.mp hc with rfl | hfalse
    · decide
    · cases hfalse
  · rw [if_neg h0, List.mem_reverse] at hc
    obtain ⟨d, hd, rfl⟩ := List.mem_map.mp hc
    exact isDigitChar_digitChar d (digitsRevFuel_lt_ten n n d hd)

theorem natToChars_ne_nil (n : Nat) : natToChars n ≠ [] := by
  rw [natToChars]
  by_cases h0 : n = 0
  · rw [if_pos h0]; simp
  · rw [if_neg h0]
    simp [digitsRev_ne_nil n h0]

theorem intToChars_ne_nil (n : Int) : intToChars n ≠ [] := by
  rw [intToChars]
  by_cases hneg : n < 0
  · rw [if_pos hneg]; simp
  · rw [if_neg hneg]; exact natToChars_ne_nil _

theorem mem_intToChars (n : Int) :
    ∀ c ∈ intToChars n, isDigitChar c = true ∨ c = '-' := by
  intro c hc
  rw [intToChars] at hc
  by_cases hneg : n < 0
  · rw [if_pos hneg] at hc
    rcases List.mem_cons.mp hc with rfl | hc
    · exact Or.inr rfl
    · exact Or.inl (mem_natToChars_isDigit _ c hc)
  · rw [if_neg hneg] at hc
    exact Or.inl (mem_natToChars_isDigit _ c hc)

theorem comma_not_mem_intToChars (n : Int) : ',' ∉ intToChars n := by
  intro h
  rcases mem_intToChars n ',' h with h | h
  · exact absurd h (by decide)
  · exact absurd h (by decide)

theorem newline_not_mem_intToChars (n : Int) :
    Char.ofNat 10 ∉ intToChars n := by
  intro h
  rcases mem_intToChars n _ h with h | h
  · exact absurd h (by decide)
  · exact absurd h (by decide)

theorem charsToInt_intToChars (n : Int) : charsToInt (intToChars n) = some n := by
  rw [intToChars]
  by_cases hneg : n < 0
  · rw [if_pos hneg]
    show (if ('-' : Char) = '-' then
        match charsToNat (natToChars n.natAbs) with
        | some m => some (-(m : Int))
        | none => none
      else
        match charsToNat (('-' : Char) :: natToChars n.natAbs) with
        | some m => some ((m : Int))
        | none => none) = some n
    rw [if_pos rfl, charsToNat_natToChars]
    show some (-(n.natAbs : Int)) = some n
    congr 1
    omega
  · rw [if_neg hneg]
    cases hcs : natToChars n.natAbs with
    | nil => exact absurd hcs (natToChars_ne_nil _)
    | cons c rest =>
        have hcd : isDigitChar c = true :=
          mem_natToChars_isDigit n.natAbs c (hcs ▸ List.mem_cons_self c rest)
        have hcne : ¬(c = '-') := by
          intro h
          subst h
          exact absurd hcd (by decide)
        show (if c = '-' then
            match charsToNat rest with
            | some m => some (-(m : Int))
            | none => none
          else
            match charsToNat (c :: rest) with
            | some m => some ((m : Int))
            | none => none) = some n
        rw [if_neg hcne, ← hcs, charsToNat_natToChars]
        show some ((n.natAbs : Int)) = some n
        congr 1
        omega

/-- Split a character stream at every occurrence of `sep` (the field and
line splitting `read_csv` performs); splitting the empty stream gives one
empty piece. -/
def splitOnChar (sep : Char) : List Char → List (List Char)
  | [] => [[]]
  | c :: cs =>
      if c = sep then [] :: splitOnChar sep cs
      else
        match splitOnChar sep cs with
        | [] => [[c]]
        | f :: rest => (c :: f) :: rest

theorem splitOnChar_ne_nil (sep : Char) (cs : List Char) :
    splitOnChar sep cs ≠ [] := by
  induction cs with
  | nil => simp [splitOnChar]
  | cons c cs ih =>
      rw [splitOnChar]
      by_cases h : c = sep
      · rw [if_pos h]; simp
      · rw [if_neg h]
        cases hs : splitOnChar sep cs with
        | nil => simp
        | cons f rest => simp

theorem splitOnChar_sepFree (sep : Char) (l : List Char) (h : sep ∉ l) :
    splitOnChar sep l = [l] := by
  induction l with
  | nil => rfl
  | cons c cs ih =>
      have hcne : ¬(c = sep) := fun hh => h (hh ▸ List.mem_cons_self c cs)
      have hcs : sep ∉ cs := fun hh => h (List.mem_cons_of_mem c hh)
      rw [splitOnChar, if_neg hcne, ih hcs]

theorem splitOnChar_append (sep : Char) (l rest : List Char) (h : sep ∉ l) :
    splitOnChar sep (l ++ sep :: rest) = l :: splitOnChar sep rest := by
  induction l with
  | nil => rw [List.nil_append, splitOnChar, if_pos rfl]
  | cons c cs ih =>
      have hcne : ¬(c = sep) := fun hh => h (hh ▸ List.mem_cons_self c cs)
      have hcs : sep ∉ cs := fun hh => h (List.mem_cons_of_mem c hh)
      rw [List.cons_append, splitOnChar, if_neg hcne, ih hcs]

theorem splitOnChar_foldr_lines (sep : Char) (lines : List (List Char))
    (h : ∀ l ∈ lines, sep ∉ l) :
    splitOnChar sep (lines.foldr (fun l acc => l ++ sep :: acc) []) =
      lines ++ [[]] := by
  induction lines with
  | nil => rfl
  | cons l ls ih =>
      rw [List.foldr_cons,
        splitOnChar_append sep _ _ (h l (List.mem_cons_self l ls)),
        ih fun x hx => h x (List.mem_cons_of_mem l hx)]
      rfl

/-- The header row `to_csv` writes: the five column names. -/
def csvHeader : List Char :=
  ['d', 'a', 't', 'e', ',',
   'c', 'a', 't', 'e', 'g', 'o', 'r', 'y', ',',
   'r', 'e', 'g', 'i', 'o', 'n', ',',
   's', 'a', 'l', 'e', 's', ',',
   'p', 'r', 'o', 'f', 'i', 't']

/-- One CSV data row of `filtered_df.to_csv(index=False)` (source line
231): the five cells joined with commas, numeric and date cells in decimal
(the claim's equivalence is up to numeric/date formatting, so the
calendar-date cell is written through its integer code). -/
def recordToRow (r : Record) : List Char :=
  intToChars r.date ++
    ',' :: (r.category ++
      ',' :: (r.region ++
        ',' :: (intToChars r.sales ++
          ',' :: intToChars r.profit)))

/-- `filtered_df.to_csv(index=False)`: the header row and one row per
record, each row terminated by a newline. -/
def toCsv (rs : List Record) : List Char :=
  (csvHeader :: rs.map recordToRow).foldr
    (fun line acc => line ++ Char.ofNat 10 :: acc) []

/-- Parse one data row back into a `Record`, the way the loader
(`pd.read_csv` plus `pd.to_datetime` on the date column, source lines
28-40) reads it: exactly five cells, with numeric date, sales and profit
cells, and non-empty category and region cells (`read_csv` would turn an
empty cell into the missing-value sentinel, not a string). -/
def parseRow (cs : List Char) : Option Record :=
  match splitOnChar ',' cs with
  | [d, c, g, s, p] =>
      match charsToInt d, charsToInt s, charsToInt p with
      | some dv, some sv, some pv =>
          if c.isEmpty || g.isEmpty then none else some (Record.mk dv c g sv pv)
      | _, _, _ => none
  | _ => none

/-- Parse every data row; `none` as soon as one row is malformed. -/
def parseRows : List (List Char) → Option (List Record)
  | [] => some []
  | l :: ls =>
      match parseRow l, parseRows ls with
      | some r, some rs => some (r :: rs)
      | _, _ => none

/-- The loader applied to a CSV character stream: split into lines (blank
lines, such as the one after the final newline, are skipped — `read_csv`'s
`skip_blank_lines`), require the five-column header, then parse each data
row. -/
def readCsv (cs : List Char) : Option (List Record) :=
  match (splitOnChar (Char.ofNat 10) cs).filter (fun l => !l.isEmpty) with
  | [] => none
  | h :: rows => if h = csvHeader then parseRows rows else none

/-- A cell value that survives the CSV round trip verbatim: non-empty and
free of the separator characters (a comma or newline inside a cell would
be quoted by `to_csv`, which this embedding does not model). -/
def goodFieldB (f : Str) : Bool :=
  !f.isEmpty && !(decide (',' ∈ f)) && !(decide (Char.ofNat 10 ∈ f))

/-- A record whose category and region cells survive the round trip. -/
def goodRecordB (r : Record) : Bool := goodFieldB r.category && goodFieldB r.region

theorem goodFieldB_spec (f : Str) (h : goodFieldB f = true) :
    f.isEmpty = false ∧ ',' ∉ f ∧ Char.ofNat 10 ∉ f := by
  rw [goodFieldB] at h
  simp only [Bool.and_eq_true, Bool.not_eq_true', decide_eq_false_iff_not] at h
  exact ⟨h.1.1, h.1.2, h.2⟩

theorem goodRecordB_spec (r : Record) (h : goodRecordB r = true) :
    goodFieldB r.category = true ∧ goodFieldB r.region = true := by
  rw [goodRecordB, Bool.and_eq_true] at h
  exact h

theorem newline_not_mem_recordToRow (r : Record) (h : goodRecordB r = true) :
    Char.ofNat 10 ∉ recordToRow r := by
  obtain ⟨hc, hg⟩ := goodRecordB_spec r h
  obtain ⟨-, -, hcnl⟩ := goodFieldB_spec _ hc
  obtain ⟨-, -, hgnl⟩ := goodFieldB_spec _ hg
  intro hmem
  rw [recordToRow] at hmem
  simp only [List.mem_append, List.mem_cons] at hmem
  have hnl : ¬(Char.ofNat 10 = ',') := by decide
  rcases hmem with h | h | h | h | h | h | h | h | h
  · exact newline_not_mem_intToChars r.date h
  · exact hnl h
  · exact hcnl h
  · exact hnl h
  · exact hgnl h
  · exact hnl h
  · exact newline_not_mem_intToChars r.sales h
  · exact hnl h
  · exact newline_not_mem_intToChars r.profit h

theorem recordToRow_isEmpty_false (r : Record) :
    (recordToRow r).isEmpty = false := by
  rw [recordToRow]
  cases hd : intToChars r.date with
  | nil => exact absurd hd (intToChars_ne_nil _)
  | cons c t => rfl

theorem parseRow_recordToRow (r : Record) (h : goodRecordB r = true) :
    parseRow (recordToRow r) = some r := by
  obtain ⟨hc, hg⟩ := goodRecordB_spec r h
  obtain ⟨hcemp, hccomma, -⟩ := goodFieldB_spec _ hc
  obtain ⟨hgemp, hgcomma, -⟩ := goodFieldB_spec _ hg
  have hsplit : splitOnChar ',' (recordToRow r) =
      [intToChars r.date, r.category, r.region,
        intToChars r.sales, intToChars r.profit] := by
    rw [recordToRow,
      splitOnChar_append ',' _ _ (comma_not_mem_intToChars r.date),
      splitOnChar_append ',' _ _ hccomma,
      splitOnChar_append ',' _ _ hgcomma,
      splitOnChar_append ',' _ _ (comma_not_mem_intToChars r.sales),
      splitOnChar_sepFree ',' _ (comma_not_mem_intToChars r.profit)]
  rw [parseRow, hsplit]
  simp only [charsToInt_intToChars]
  rw [if_neg]
  rw [hcemp, hgemp]
  simp

theorem parseRows_map (rs : List Record) (h : ∀ r ∈ rs, goodRecordB r = true) :
    parseRows (rs.map recordToRow) = some rs := by
  induction rs with
  | nil => rfl
  | cons r rest ih =>
      rw [List.map_cons, parseRows,
        parseRow_recordToRow r (h r (List.mem_cons_self r rest)),
        ih fun x hx => h x (List.mem_cons_of_mem r hx)]

/-- C8: exporting a filtered view to CSV (header row plus one comma-joined
row per record, each newline-terminated) and re-loading the stream through
the loader yields exactly the same records with the same field values —
for every view whose category and region cells are non-empty and free of
separator characters (cells `to_csv` would otherwise quote). -/
theorem c8_csv_round_trip (rs : List Record)
    (h : rs.all goodRecordB = true) :
    readCsv (toCsv rs) = some rs := by
  have hmem : ∀ r ∈ rs, goodRecordB r = true := List.all_eq_true.mp h
  have hnosep : ∀ l ∈ csvHeader :: rs.map recordToRow, Char.ofNat 10 ∉ l := by
    intro l hl
    rcases List.mem_cons.mp hl with rfl | hl
    · decide
    · obtain ⟨r, hr, rfl⟩ := List.mem_map.mp hl
      exact newline_not_mem_recordToRow r (hmem r hr)
  rw [readCsv, toCsv, splitOnChar_foldr_lines _ _ hnosep, List.filter_append]
  have h1 : (csvHeader :: rs.map recordToRow).filter (fun l => !l.isEmpty) =
      csvHeader :: rs.map recordToRow := by
    rw [List.filter_eq_self]
    intro a ha
    rcases List.mem_cons.mp ha with rfl | ha
    · decide
    · obtain ⟨r, hr, rfl⟩ := List.mem_map.mp ha
      rw [recordToRow_isEmpty_false r]
      rfl
  have h2 : ([[]] : List (List Char)).filter (fun l => !l.isEmpty) = [] := rfl
  rw [h1, h2, List.append_nil]
  show (if csvHeader = csvHeader then parseRows (rs.map recordToRow) else none) =
    some rs
  rw [if_pos rfl]
  exact parseRows_map rs hmem

/-- C8 witness: the §8 scenario dataset — three records, one with a
negative profit — serializes to CSV and re-loads to exactly itself. -/
theorem c8_witness :
    sampleDf.all goodRecordB = true ∧ readCsv (toCsv sampleDf) = some sampleDf :=
  ⟨by decide, c8_csv_round_trip sampleDf (by decide)⟩
